import Mathlib

/-!
Verification of the earthquake-dashboard data pipeline
(`src/streamlit_app.py`): schema normalization (`load_data`), the
place/minimum-magnitude filter block, the optional country/continent
enrichment (`enrich_country_continent`), and the aggregation blocks
feeding the KPI metrics, the magnitude histogram and the region tab.

Modelling conventions:
* a pandas DataFrame is a list of rows plus table-level flags recording
  which columns are present; the rename on line 52 of the source
  (`latitude` to `lat`, `longitude` to `lon`, `mag` to `magnitude`) is a
  pure column renaming, so raw rows are stated directly in canonical
  column names;
* a raw cell is either a value that parses as a number, a value that
  does not, or a missing value; `pd.to_numeric(errors="coerce")` and
  `pd.to_datetime(errors="coerce")` map the first kind to its value and
  the other two to null;
* floats are modelled as rationals, timestamps as rational epoch values,
  nulls as `Option.none`.
-/

/-- A raw cell of the fetched CSV: a numeric-parsable value, an
unparsable value, or a missing entry. -/
inductive RawCell where
  | num (x : ℚ)
  | str (s : String)
  | null
deriving DecidableEq

/-- One raw CSV row, in canonical (post-rename) column names. The cell
of a column is only meaningful when the table-level flag says the column
is present. -/
structure RawRow where
  time : RawCell
  lat : RawCell
  lon : RawCell
  magnitude : RawCell
  depth : RawCell
  place : Option String
  id : String
deriving DecidableEq

/-- A raw CSV table: which columns are present, and the rows. -/
structure RawTable where
  hasTime : Bool
  hasLat : Bool
  hasLon : Bool
  hasMagnitude : Bool
  hasDepth : Bool
  hasPlace : Bool
  hasId : Bool
  rows : List RawRow
deriving DecidableEq

/-- One normalized row as produced by `load_data` (lines 42-69). -/
structure Row where
  time : Option ℚ
  lat : Option ℚ
  lon : Option ℚ
  magnitude : Option ℚ
  depth : Option ℚ
  place : Option String
  id : String
deriving DecidableEq

/-- Semantics of `pd.to_numeric(col, errors="coerce")` on one cell:
parsable values survive, unparsable or missing values become null. -/
def toNumeric : RawCell → Option ℚ
  | RawCell.num x => some x
  | RawCell.str _ => none
  | RawCell.null => none

/-- Semantics of `pd.to_datetime(col, errors="coerce", utc=True)` on one
cell: parsable values survive (as an epoch value), everything else is
NaT, i.e. null. -/
def toDatetime : RawCell → Option ℚ
  | RawCell.num x => some x
  | RawCell.str _ => none
  | RawCell.null => none

/-- Encoding of an optional rational into a natural number, used by the
hash stand-in below. -/
def qKey : Option ℚ → ℕ
  | none => 0
  | some q => 1 + ((q.num.natAbs * 2 + (if q.num < 0 then 1 else 0)) * 1000003 + q.den)

/-- Modelled from the spec: stand-in for
`pd.util.hash_pandas_object(df[["time","lat","lon"]], index=False)`
(line 67), a deterministic per-row 64-bit hash of the three normalized
values. The theorems below rely only on it being a function of the
triple (equal triples hash equally), never on its concrete values. -/
def hashTriple (t la lo : Option ℚ) : ℕ :=
  ((qKey t * 1000003 + qKey la) * 1000003 + qKey lo) % 2 ^ 64

/-- Normalization of one row by `load_data` (lines 44-67): time parsed
with coercion (all-NaT when the column is missing), the four numeric
columns created as null when missing and coerced with `to_numeric`
otherwise, `place` created as the empty string when missing and
null-filled with the empty string otherwise, `id` taken from the source
when present and otherwise derived from the normalized
(time, lat, lon). -/
def normRow (T : RawTable) (r : RawRow) : Row :=
  let time := if T.hasTime then toDatetime r.time else none
  let lat := if T.hasLat then toNumeric r.lat else none
  let lon := if T.hasLon then toNumeric r.lon else none
  let magnitude := if T.hasMagnitude then toNumeric r.magnitude else none
  let depth := if T.hasDepth then toNumeric r.depth else none
  { time := time
    lat := lat
    lon := lon
    magnitude := magnitude
    depth := depth
    place := some (if T.hasPlace then r.place.getD "" else "")
    id := if T.hasId then r.id else toString (hashTriple time lat lon) }

/-- `load_data` (lines 42-69): row-wise schema normalization. Rows are
never dropped; every data-quality problem is absorbed cell by cell. -/
def load_data (T : RawTable) : List Row :=
  T.rows.map (normRow T)

/-!
The filter block (lines 75-78):

  f = df.copy()
  if q:
      f = f[f["place"].str.contains(q, case=False, na=False)]
  f = f[f["magnitude"].fillna(0) >= min_mag].copy()

`Series.str.contains` is called with its default `regex=True`, so the
user's keyword is a regular-expression pattern matched case-insensitively
anywhere in the string, and `na=False` makes null places never match.
The regex fragment reachable by the patterns considered in this
development (literal characters and the any-character wildcard) is
modelled directly; `patMatchesAt` is `re.match` of that fragment at a
fixed position and `reSearch` is `re.search`, i.e. a match attempt at
every start position.
-/

/-- Match of a (literal or wildcard-dot) pattern at the start of a
string, ignoring case, one character of input per pattern character. -/
def patMatchesAt : List Char → List Char → Bool
  | [], _ => true
  | _ :: _, [] => false
  | p :: ps, c :: cs => (p == '.' || p.toLower == c.toLower) && patMatchesAt ps cs

/-- Semantics of `re.search` with `re.IGNORECASE` for the modelled
fragment: try a match at every starting position. -/
def reSearch (ps : List Char) : List Char → Bool
  | [] => patMatchesAt ps []
  | c :: cs => patMatchesAt ps (c :: cs) || reSearch ps cs

/-- One cell of `f["place"].str.contains(q, case=False, na=False)`:
null never matches, otherwise regex search of the pattern. -/
def strContainsCI (place : Option String) (pat : String) : Bool :=
  match place with
  | none => false
  | some s => reSearch pat.data s.data

/-- Case-insensitive prefix comparison of two literal strings. -/
def litPrefixCI : List Char → List Char → Bool
  | [], _ => true
  | _ :: _, [] => false
  | p :: ps, c :: cs => (p.toLower == c.toLower) && litPrefixCI ps cs

/-- Case-insensitive substring search of a literal pattern. -/
def litSearchCI (ps : List Char) : List Char → Bool
  | [] => litPrefixCI ps []
  | c :: cs => litPrefixCI ps (c :: cs) || litSearchCI ps cs

/-- Stated from the spec's words: a `place` cell contains the filter
string as a case-insensitive literal substring (null never does). This
is the spec-side notion that the claim compares with the code-side
`strContainsCI`. -/
def containsCISubstring (place : Option String) (pat : String) : Bool :=
  match place with
  | none => false
  | some s => litSearchCI pat.data s.data

/-- True when the pattern uses no regex metacharacter of the modelled
fragment (no wildcard dot), i.e. it is a plain literal keyword. -/
def literalPattern (pat : String) : Bool :=
  pat.data.all (fun c => ! (c == '.'))

/-- The place-substring branch of the filter block (lines 76-77): an
empty keyword is falsy and skips the filter. -/
def applyPlaceFilter (q : String) (t : List Row) : List Row :=
  if q = "" then t else t.filter (fun r => strContainsCI r.place q)

/-- The minimum-magnitude branch (line 78): null magnitude is filled
with 0 before the comparison. -/
def applyMagFilter (m : ℚ) (t : List Row) : List Row :=
  t.filter (fun r => decide (m ≤ r.magnitude.getD 0))

/-- The whole filter block (lines 75-78). -/
def filterTable (t : List Row) (q : String) (m : ℚ) : List Row :=
  applyMagFilter m (applyPlaceFilter q t)

/-!
`enrich_country_continent` (lines 83-116). The two optional libraries
are external collaborators: availability is a boolean capability, the
coordinate-to-country lookup (`rg.search`, nearest point, mode 2) is an
arbitrary total function from a coordinate pair to an ISO code, and the
two `CountryConverter.convert` tables (`name_short` and `continent`,
`not_found=None`) are arbitrary partial maps from codes. The function is
universally quantified over all of them, and each theorem holds for
every collaborator behavior.
-/

/-- A row after the enrichment stage: the input row plus the three
optional columns the stage adds. -/
structure ERow where
  base : Row
  country_code : Option String
  country : Option String
  continent : Option String
deriving DecidableEq

/-- Enrichment of one row when the libraries are available: only rows
with both coordinates non-null are looked up (`out[["lat","lon"]].dropna()`
on lines 99-111); the code of a looked-up row is converted to a name and
a continent, a code with no table entry yielding null. -/
def enrichRow (rgSearch : ℚ → ℚ → String) (ccName ccContinent : String → Option String)
    (r : Row) : ERow :=
  match r.lat, r.lon with
  | some la, some lo =>
    let code := rgSearch la lo
    { base := r
      country_code := some code
      country := ccName code
      continent := ccContinent code }
  | _, _ =>
    { base := r, country_code := none, country := none, continent := none }

/-- `enrich_country_continent` (lines 84-116): when either library is
missing the stage returns a copy of its input with the three columns
all-null; otherwise every coordinate-valid row is looked up. (The
short-circuit on lines 100-104 for a table with no coordinate-valid row
produces the same all-null columns row-wise, so it is absorbed by the
per-row match.) -/
def enrich_country_continent (rgSearch : ℚ → ℚ → String)
    (ccName ccContinent : String → Option String) (available : Bool)
    (t : List Row) : List ERow :=
  if available then
    t.map (enrichRow rgSearch ccName ccContinent)
  else
    t.map (fun r => { base := r, country_code := none, country := none, continent := none })

/-!
The aggregation blocks: the KPI metrics (lines 124-128), the magnitude
histogram (lines 230-233) and the region tab (lines 241-272).
-/

/-- The non-null entries of the magnitude column
(`f["magnitude"].dropna()`). -/
def magsOf (t : List ERow) : List ℚ :=
  t.filterMap (fun r => r.base.magnitude)

/-- The non-null entries of the depth column. -/
def depthsOf (t : List ERow) : List ℚ :=
  t.filterMap (fun r => r.base.depth)

/-- Maximum of a list of rationals, as used for
`f["magnitude"].max()` on a non-empty non-null column. -/
def maxQ : List ℚ → ℚ
  | [] => 0
  | x :: xs => xs.foldl max x

/-- Skipping-null maximum of a column (pandas `Series.max`): null (NaN)
when the column has no non-null entry. -/
def maxColumn (l : List ℚ) : Option ℚ :=
  match l with
  | [] => none
  | _ => some (maxQ l)

/-- Skipping-null mean of a column (pandas `Series.mean`): null (NaN)
when the column has no non-null entry. -/
def meanColumn (l : List ℚ) : Option ℚ :=
  match l with
  | [] => none
  | _ => some (l.sum / l.length)

/-- A KPI cell: the rendered number, or the literal placeholder dash
the code shows for an empty table. -/
inductive Metric where
  | placeholder
  | value (x : Option ℚ)
deriving DecidableEq

/-- KPI event count (line 125): the number of rows. -/
def kpiEventCount (t : List ERow) : ℕ :=
  t.length

/-- KPI maximum magnitude (line 126): a dash when the table is empty. -/
def kpiMaxMagnitude (t : List ERow) : Metric :=
  if t.length ≠ 0 then Metric.value (maxColumn (magsOf t)) else Metric.placeholder

/-- KPI mean magnitude (line 127): a dash when the table is empty. -/
def kpiMeanMagnitude (t : List ERow) : Metric :=
  if t.length ≠ 0 then Metric.value (meanColumn (magsOf t)) else Metric.placeholder

/-- KPI mean depth (line 128): a dash when the table is empty. -/
def kpiMeanDepth (t : List ERow) : Metric :=
  if t.length ≠ 0 then Metric.value (meanColumn (depthsOf t)) else Metric.placeholder

/-- Upper histogram bound (line 231): `max(8.0, f["magnitude"].max())`. -/
def histUpper (t : List ERow) : ℚ :=
  max 8 (maxQ (magsOf t))

/-- The 21 bin edges of `np.histogram(..., bins=20, range=(0, upper))`:
an arithmetic progression from 0 to `upper`. -/
def histEdges (upper : ℚ) : List ℚ :=
  (List.range 21).map (fun i : ℕ => upper * i / 20)

/-- The bin a magnitude falls into under `np.histogram` semantics: the
half-open interval `[edge i, edge (i+1))` for the first 19 bins, the
closed last bin, and no bin at all for a value outside `[0, upper]`. -/
def binIndex (u x : ℚ) : Option ℕ :=
  (List.range 20).find? (fun j =>
    decide (u * j / 20 ≤ x) &&
      (decide (x < u * (j + 1) / 20) || (j == 19 && decide (x = u))))

/-- The 20 bin counts of `np.histogram(f["magnitude"].dropna(), bins=20,
range=(0, upper))`. -/
def histCounts (u : ℚ) (mags : List ℚ) : List ℕ :=
  (List.range 20).map (fun j => (mags.filter (fun x => binIndex u x == some j)).length)

/-- The histogram block (lines 230-233): rendered only when the table is
non-empty and some magnitude is non-null; its output is the pair of bin
edges and bin counts. -/
def tab_trend_hist (t : List ERow) : Option (List ℚ × List ℕ) :=
  if t.length ≠ 0 ∧ magsOf t ≠ [] then
    some (histEdges (histUpper t), histCounts (histUpper t) (magsOf t))
  else none

/-!
The region tab (lines 241-272): rows with a null key are dropped, the
remaining rows are grouped by key, each group is summarized, and groups
are sorted by descending event count (the country table additionally
keeps only the first 20 groups). Group-key enumeration order and the
order among groups of equal event count are not relied upon by any
theorem below.
-/

/-- One row of a region summary table. -/
structure GroupRow where
  key : String
  events : ℕ
  max_mag : Option ℚ
  avg_mag : Option ℚ
  avg_depth : Option ℚ
deriving DecidableEq

/-- The rows of one group: those whose key column equals `k`. -/
def groupOf (t : List ERow) (key : ERow → Option String) (k : String) : List ERow :=
  t.filter (fun r => key r == some k)

/-- The aggregates of one group (lines 247-250): event count by `id`
(ids are counted, one per row), max magnitude, mean magnitude, mean
depth. -/
def groupStats (t : List ERow) (key : ERow → Option String) (k : String) : GroupRow :=
  let g := groupOf t key k
  { key := k
    events := g.length
    max_mag := maxColumn (magsOf g)
    avg_mag := meanColumn (magsOf g)
    avg_depth := meanColumn (depthsOf g) }

/-- Insertion into a list kept in descending event-count order. -/
def insertByEventsDesc (x : GroupRow) : List GroupRow → List GroupRow
  | [] => [x]
  | y :: ys => if y.events < x.events then x :: y :: ys else y :: insertByEventsDesc x ys

/-- `sort_values("events", ascending=False)` (line 251). -/
def sortByEventsDesc (l : List GroupRow) : List GroupRow :=
  l.foldr insertByEventsDesc []

/-- The group-by/aggregate/sort pipeline of the region tab, for one key
column. -/
def groupSummary (t : List ERow) (key : ERow → Option String) : List GroupRow :=
  sortByEventsDesc (((t.filterMap key).dedup).map (groupStats t key))

/-- The continent summary (lines 243-253): the whole region branch runs
only under the guard `len(f) and f["continent"].notna().any()`. -/
def continentSummary (t : List ERow) : List GroupRow :=
  if t.length ≠ 0 ∧ (t.any fun r => r.continent.isSome) then
    groupSummary t (fun r => r.continent)
  else []

/-- The country summary (lines 258-268), truncated to the top 20 groups;
it sits inside the same guard as the continent summary. -/
def countrySummary (t : List ERow) : List GroupRow :=
  if t.length ≠ 0 ∧ (t.any fun r => r.continent.isSome) then
    (groupSummary t (fun r => r.country)).take 20
  else []

/-!
Concrete rows and tables used by the counterexamples and witnesses.
`rowNegMag` reflects that the USGS feed does report negative magnitudes
for micro-earthquakes.
-/

/-- A normalized row with a non-null magnitude and a place name. -/
def rowJapan : Row :=
  { time := none, lat := some 35, lon := some 139, magnitude := some 5,
    depth := some 10, place := some ("Honshu, Japan"), id := "evt1" }

/-- A normalized row whose magnitude is null. -/
def rowNullMag : Row :=
  { time := none, lat := none, lon := none, magnitude := none,
    depth := none, place := some (""), id := "evt2" }

/-- A normalized row with a negative magnitude. -/
def rowNegMag : Row :=
  { time := none, lat := some 1, lon := some 2, magnitude := some (-1),
    depth := some 3, place := some ("California"), id := "evt3" }

/-- A raw row, duplicated below up to its place name. -/
def rawDupA : RawRow :=
  { time := RawCell.null, lat := RawCell.num 1, lon := RawCell.num 2,
    magnitude := RawCell.num 3, depth := RawCell.null, place := some ("A"), id := "x" }

/-- Same time, lat and lon as `rawDupA`, different place. -/
def rawDupB : RawRow :=
  { time := RawCell.null, lat := RawCell.num 1, lon := RawCell.num 2,
    magnitude := RawCell.num 3, depth := RawCell.null, place := some ("B"), id := "x" }

/-- A raw table without an id column whose two distinct rows share their
(time, lat, lon) cells. -/
def dupTable : RawTable :=
  { hasTime := true, hasLat := true, hasLon := true, hasMagnitude := true,
    hasDepth := true, hasPlace := true, hasId := false, rows := [rawDupA, rawDupB] }

/-- Wrapping of a normalized row as an unenriched row, as the
unavailable branch of the enrichment stage produces. -/
def erow (r : Row) : ERow :=
  { base := r, country_code := none, country := none, continent := none }

/-- A normalized row with magnitude exactly 0. -/
def rowZeroMag : Row :=
  { time := none, lat := some 3, lon := some 4, magnitude := some 0,
    depth := some 1, place := some ("Nevada"), id := "evt4" }

/-- A working table whose magnitudes are 0 and -1: the histogram bins
only the first. -/
def histTable : List ERow :=
  [erow rowZeroMag, erow rowNegMag]

/-- Base row of an enriched row is the input row, in both branches of
the coordinate-validity match. -/
theorem enrichRow_base (rgSearch : ℚ → ℚ → String)
    (ccName ccContinent : String → Option String) (r : Row) :
    (enrichRow rgSearch ccName ccContinent r).base = r := by
  cases hl : r.lat <;> cases ho : r.lon <;> simp [enrichRow, hl, ho]

/-- C1: for every raw tabular input, even one missing any of the columns
lat, lon, magnitude, depth, place, id, `load_data` produces a table in
which every column is present on every row (structurally: every output
`Row` carries all seven fields, in particular an `id` string), no row is
dropped, the four numeric columns hold the coerced value (null exactly
when the column is missing or the cell does not parse), and `place` is
never null: a missing column yields the empty string and a null cell is
filled with the empty string. -/
theorem C1_load_data_normalizes (T : RawTable) :
    (load_data T).length = T.rows.length ∧
    List.Forall₂ (fun (raw : RawRow) (out : Row) =>
      out.time = (if T.hasTime then toDatetime raw.time else none) ∧
      out.lat = (if T.hasLat then toNumeric raw.lat else none) ∧
      out.lon = (if T.hasLon then toNumeric raw.lon else none) ∧
      out.magnitude = (if T.hasMagnitude then toNumeric raw.magnitude else none) ∧
      out.depth = (if T.hasDepth then toNumeric raw.depth else none) ∧
      out.place = some (if T.hasPlace then raw.place.getD "" else ""))
      T.rows (load_data T) := by
  constructor
  · simp [load_data]
  · rw [load_data, List.forall₂_map_right_iff, List.forall₂_same]
    intro r hr
    simp [normRow]

/-- C5: when the geocoding libraries are unavailable,
`enrich_country_continent` is total (it is a Lean function, so it cannot
raise) and returns its input with the three enrichment columns added
all-null, everything else unchanged. -/
theorem C5_enrich_unavailable (rgSearch : ℚ → ℚ → String)
    (ccName ccContinent : String → Option String) (t : List Row) :
    enrich_country_continent rgSearch ccName ccContinent false t
      = t.map (fun r =>
          { base := r, country_code := none, country := none, continent := none }) ∧
    (enrich_country_continent rgSearch ccName ccContinent false t).map ERow.base = t := by
  refine ⟨rfl, ?_⟩
  simp [enrich_country_continent, Function.comp_def]

/-- C6: for every collaborator behavior and every availability state,
geo enrichment preserves row count and row order and leaves every
non-enrichment column of every row unchanged: mapping each output row
back to its base row recovers the input list exactly. -/
theorem C6_enrich_frame (rgSearch : ℚ → ℚ → String)
    (ccName ccContinent : String → Option String) (available : Bool) (t : List Row) :
    (enrich_country_continent rgSearch ccName ccContinent available t).length = t.length ∧
    (enrich_country_continent rgSearch ccName ccContinent available t).map ERow.base = t := by
  cases available
  · constructor <;> simp [enrich_country_continent, Function.comp_def]
  · constructor <;>
      simp [enrich_country_continent, List.map_map, Function.comp_def, enrichRow_base]

/-- C9: on an empty working table, the aggregator renders event count 0,
renders the three ratio KPIs as the placeholder dash rather than a
number, and the region branch produces no continent or country group
rows. -/
theorem C9_empty_aggregates :
    kpiEventCount [] = 0 ∧
    kpiMaxMagnitude [] = Metric.placeholder ∧
    kpiMeanMagnitude [] = Metric.placeholder ∧
    kpiMeanDepth [] = Metric.placeholder ∧
    continentSummary [] = [] ∧
    countrySummary [] = [] := by
  refine ⟨rfl, ?_, ?_, ?_, ?_, ?_⟩ <;>
    simp [kpiMaxMagnitude, kpiMeanMagnitude, kpiMeanDepth, continentSummary, countrySummary]

/-- C10: the filter block is a composition of boolean-mask selections,
so the surviving rows form a sublist of the input: they appear in the
output in the same relative order as in the input. -/
theorem C10_filter_preserves_order (t : List Row) (q : String) (m : ℚ) :
    List.Sublist (filterTable t q m) t := by
  have h1 : List.Sublist (applyPlaceFilter q t) t := by
    unfold applyPlaceFilter
    split
    · exact List.Sublist.refl t
    · exact List.filter_sublist t
  exact (List.filter_sublist _).trans h1

/-- C2 fails as stated: `str.contains` is called with its default
`regex=True`, so the keyword is a regex pattern, not a literal
substring. With the pattern consisting of the single wildcard dot, the
row with place Honshu, Japan is kept by the place filter although its
place does not contain a dot as a (case-insensitive) substring. -/
theorem C2_place_filter_counterexample :
    applyPlaceFilter (".") [rowJapan] = [rowJapan] ∧
    containsCISubstring rowJapan.place (".") = false := by
  constructor <;> decide

/-- On a pattern without wildcard dots, a positional regex match is a
case-insensitive literal prefix comparison. -/
theorem patMatchesAt_eq_litPrefixCI (ps : List Char)
    (h : ps.all (fun c => ! (c == '.')) = true) (s : List Char) :
    patMatchesAt ps s = litPrefixCI ps s := by
  induction ps generalizing s with
  | nil => cases s <;> rfl
  | cons p ps ih =>
    rw [List.all_cons, Bool.and_eq_true] at h
    have hp : (p == '.') = false := by
      cases hpc : (p == '.') with
      | false => rfl
      | true => rw [hpc] at h; simp at h
    cases s with
    | nil => rfl
    | cons c cs => simp [patMatchesAt, litPrefixCI, hp, ih h.2]

/-- On a pattern without wildcard dots, regex search is case-insensitive
literal substring search. -/
theorem reSearch_eq_litSearchCI (ps : List Char)
    (h : ps.all (fun c => ! (c == '.')) = true) (s : List Char) :
    reSearch ps s = litSearchCI ps s := by
  induction s with
  | nil => exact patMatchesAt_eq_litPrefixCI ps h []
  | cons c cs ih =>
    simp only [reSearch, litSearchCI, patMatchesAt_eq_litPrefixCI ps h, ih]

/-- C2 amended: for every non-empty filter string made only of literal
characters (no regex metacharacter), every row kept by the place filter
has a place containing the string as a case-insensitive substring, and
a null or empty place never matches. -/
theorem C2_place_filter_literal (t : List Row) (pat : String)
    (hne : pat ≠ "") (hlit : literalPattern pat = true) :
    (∀ r ∈ applyPlaceFilter pat t, containsCISubstring r.place pat = true) ∧
    strContainsCI (some ("")) pat = false ∧
    strContainsCI none pat = false := by
  have hdata : pat.data ≠ [] := by
    intro hd
    apply hne
    cases pat
    simp_all
  refine ⟨?_, ?_, rfl⟩
  · intro r hr
    unfold applyPlaceFilter at hr
    rw [if_neg hne] at hr
    have hkept := (List.mem_filter.mp hr).2
    cases hpl : r.place with
    | none => simp [strContainsCI, hpl] at hkept
    | some s =>
      rw [hpl] at hkept
      have h1 : reSearch pat.data s.data = true := hkept
      show litSearchCI pat.data s.data = true
      rwa [← reSearch_eq_litSearchCI pat.data hlit]
  · show reSearch pat.data [] = false
    cases hps : pat.data with
    | nil => exact absurd hps hdata
    | cons p ps => rfl

/-- Witness for the amended C2 at a concrete table and keyword. -/
theorem C2_place_filter_literal_witness :
    containsCISubstring rowJapan.place ("japan") = true :=
  (C2_place_filter_literal [rowJapan] ("japan") (by decide) (by decide)).1
    rowJapan (by decide)

/-- C3 fails as stated: at minimum magnitude 0.0 the filter is not the
identity, because `fillna(0) >= 0` drops rows whose magnitude is
negative, and the feed does contain negative magnitudes. -/
theorem C3_identity_filter_counterexample :
    filterTable [rowNegMag] ("") 0 = [] ∧ [rowNegMag] ≠ ([] : List Row) := by
  constructor <;> decide

/-- C3 amended: the filter with empty place substring and minimum
magnitude 0.0 returns the table unchanged, rows with null magnitude
included, provided every non-null magnitude is nonnegative; in general
it removes exactly the rows with negative magnitude. -/
theorem C3_identity_filter_nonneg (t : List Row)
    (h : ∀ r ∈ t, 0 ≤ r.magnitude.getD 0) :
    filterTable t ("") 0 = t := by
  unfold filterTable applyPlaceFilter
  rw [if_pos rfl]
  unfold applyMagFilter
  rw [List.filter_eq_self]
  intro a ha
  exact decide_eq_true (h a ha)

/-- Witness for the amended C3 on a table with a null-magnitude row and
a positive-magnitude row. -/
theorem C3_identity_filter_nonneg_witness :
    filterTable [rowNullMag, rowJapan] ("") 0 = [rowNullMag, rowJapan] :=
  C3_identity_filter_nonneg [rowNullMag, rowJapan] (by decide)

/-- C4: in the minimum-magnitude filter a null magnitude is filled with
0 before the comparison, so such a row is kept if and only if the
threshold is at most 0: it fails every positive threshold and passes a
threshold of zero or below. -/
theorem C4_null_magnitude_threshold (t : List Row) (m : ℚ) (r : Row)
    (hnull : r.magnitude = none) :
    r ∈ applyMagFilter m t ↔ (r ∈ t ∧ m ≤ 0) := by
  unfold applyMagFilter
  rw [List.mem_filter]
  constructor
  · rintro ⟨hmem, hdec⟩
    refine ⟨hmem, ?_⟩
    have hle := of_decide_eq_true hdec
    rw [hnull] at hle
    simpa using hle
  · rintro ⟨hmem, hle⟩
    refine ⟨hmem, ?_⟩
    rw [hnull]
    simpa using decide_eq_true hle

/-- Witness for C4: the null-magnitude row and threshold 0. -/
theorem C4_null_magnitude_threshold_witness :
    rowNullMag ∈ applyMagFilter 0 [rowJapan, rowNullMag] ↔
      (rowNullMag ∈ [rowJapan, rowNullMag] ∧ (0 : ℚ) ≤ 0) :=
  C4_null_magnitude_threshold [rowJapan, rowNullMag] 0 rowNullMag (by decide)

/-- C8 fails as stated: two distinct raw rows that agree on time, lat
and lon receive the same derived id, so `id` is not unique within the
loaded table. -/
theorem C8_id_counterexample :
    ¬ ((load_data dupTable).map Row.id).Nodup ∧ (load_data dupTable).Nodup := by
  constructor <;> decide

/-- In a table without an id column, every normalized row's id is the
encoded hash of its normalized (time, lat, lon). -/
theorem load_data_id (T : RawTable) (hid : T.hasId = false) (r : Row)
    (hr : r ∈ load_data T) :
    r.id = toString (hashTriple r.time r.lat r.lon) := by
  obtain ⟨raw, hraw, rfl⟩ := List.mem_map.mp hr
  simp [normRow, hid]

/-- C8 amended: when the source lacks an id column, each row's id is
derived deterministically from its normalized (time, lat, lon) — rows
with equal triples receive equal ids, so repeated loads of the same
underlying event produce the same id — but ids are not unique within a
table: distinct rows sharing a (time, lat, lon) triple receive
identical ids. -/
theorem C8_id_deterministic (T : RawTable) (r₁ r₂ : Row) (hid : T.hasId = false)
    (h₁ : r₁ ∈ load_data T) (h₂ : r₂ ∈ load_data T)
    (ht : r₁.time = r₂.time) (hla : r₁.lat = r₂.lat) (hlo : r₁.lon = r₂.lon) :
    r₁.id = r₂.id := by
  rw [load_data_id T hid r₁ h₁, load_data_id T hid r₂ h₂, ht, hla, hlo]

/-- Witness for the amended C8 on the duplicate-triple table. -/
theorem C8_id_deterministic_witness :
    (normRow dupTable rawDupA).id = (normRow dupTable rawDupB).id :=
  C8_id_deterministic dupTable (normRow dupTable rawDupA) (normRow dupTable rawDupB)
    (by decide) (by decide) (by decide) (by decide) (by decide) (by decide)

/-- A left fold with `max` dominates its seed and every list element. -/
theorem foldl_max_le (l : List ℚ) : ∀ a : ℚ,
    a ≤ l.foldl max a ∧ ∀ x ∈ l, x ≤ l.foldl max a := by
  induction l with
  | nil => exact fun a => ⟨le_refl a, by simp⟩
  | cons b l ih =>
    intro a
    constructor
    · exact le_trans (le_max_left a b) (ih (max a b)).1
    · intro x hx
      rcases List.mem_cons.mp hx with rfl | hx
      · exact le_trans (le_max_right a x) (ih (max a x)).1
      · exact (ih (max a b)).2 x hx

/-- Every element of a list is at most its maximum. -/
theorem le_maxQ (l : List ℚ) (x : ℚ) (hx : x ∈ l) : x ≤ maxQ l := by
  cases l with
  | nil => cases hx
  | cons a l =>
    rcases List.mem_cons.mp hx with rfl | hx
    · exact (foldl_max_le l x).1
    · exact (foldl_max_le l a).2 x hx

/-- A bin index produced by `binIndex` is one of the 20 bins. -/
theorem binIndex_lt_20 (u x : ℚ) (j : ℕ) (h : binIndex u x = some j) : j < 20 :=
  List.mem_range.mp (List.mem_of_find?_eq_some h)

/-- A magnitude that falls into some bin is nonnegative: values below
the range are not binned. -/
theorem binIndex_nonneg (u x : ℚ) (hu : 0 < u) (h : (binIndex u x).isSome = true) :
    0 ≤ x := by
  obtain ⟨j, hj⟩ := Option.isSome_iff_exists.mp h
  have hp := List.find?_some hj
  rw [Bool.and_eq_true] at hp
  have h1 : u * j / 20 ≤ x := of_decide_eq_true hp.1
  have h0 : (0 : ℚ) ≤ u * j / 20 := by positivity
  linarith

/-- A magnitude inside the histogram range falls into some bin. -/
theorem binIndex_isSome (u x : ℚ) (hu : 0 < u) (h0 : 0 ≤ x) (hxu : x ≤ u) :
    (binIndex u x).isSome = true := by
  rcases eq_or_lt_of_le hxu with rfl | hlt
  · rw [binIndex, List.find?_isSome]
    refine ⟨19, by decide, ?_⟩
    rw [Bool.and_eq_true, Bool.or_eq_true]
    refine ⟨decide_eq_true ?_, Or.inr (by simp)⟩
    rw [div_le_iff₀ (by norm_num : (0 : ℚ) < 20)]
    push_cast
    nlinarith
  · rw [binIndex, List.find?_isSome]
    have hr0 : (0 : ℚ) ≤ 20 * x / u := by positivity
    refine ⟨⌊20 * x / u⌋₊, ?_, ?_⟩
    · rw [List.mem_range, Nat.floor_lt hr0, div_lt_iff₀ hu]
      push_cast
      linarith
    · rw [Bool.and_eq_true]
      constructor
      · apply decide_eq_true
        have hfl : ((⌊20 * x / u⌋₊ : ℕ) : ℚ) ≤ 20 * x / u := Nat.floor_le hr0
        rw [le_div_iff₀ hu] at hfl
        rw [div_le_iff₀ (by norm_num : (0 : ℚ) < 20)]
        linarith
      · rw [Bool.or_eq_true]
        left
        apply decide_eq_true
        have hfl : 20 * x / u < (⌊20 * x / u⌋₊ : ℚ) + 1 := Nat.lt_floor_add_one _
        rw [div_lt_iff₀ hu] at hfl
        rw [lt_div_iff₀ (by norm_num : (0 : ℚ) < 20)]
        linarith

/-- Sums distribute over pointwise addition under a map. -/
theorem sum_map_add_nat {α : Type} (l : List α) (f g : α → ℕ) :
    (l.map (fun a => f a + g a)).sum = (l.map f).sum + (l.map g).sum := by
  induction l with
  | nil => rfl
  | cons a l ih => simp [ih]; omega

/-- Summing the indicator of one value over an initial segment. -/
theorem sum_delta (k n : ℕ) :
    ((List.range n).map (fun j => if k = j then 1 else 0)).sum
      = if k < n then 1 else 0 := by
  induction n with
  | zero => simp
  | succ n ih =>
    rw [List.range_succ, List.map_append, List.sum_append, ih]
    simp only [List.map_cons, List.map_nil, List.sum_cons, List.sum_nil]
    split_ifs <;> omega

/-- Each binned magnitude is counted in exactly one bin: the total of
the 20 bin counts is the number of magnitudes that fall into a bin. -/
theorem histCounts_sum (u : ℚ) (mags : List ℚ) :
    (histCounts u mags).sum
      = (mags.filter (fun x => (binIndex u x).isSome)).length := by
  induction mags with
  | nil => simp [histCounts]
  | cons x xs ih =>
    unfold histCounts at ih ⊢
    have hstep : (fun j : ℕ =>
        (List.filter (fun y => binIndex u y == some j) (x :: xs)).length)
        = fun j : ℕ =>
            (if binIndex u x == some j then 1 else 0)
              + (List.filter (fun y => binIndex u y == some j) xs).length := by
      funext j
      rw [List.filter_cons]
      split_ifs with h
      · simp [Nat.add_comm]
      · simp
    rw [hstep, sum_map_add_nat, ih, List.filter_cons]
    cases hbi : binIndex u x with
    | none =>
      have hfeq : (fun j : ℕ => if (none : Option ℕ) == some j then 1 else 0)
          = fun _ : ℕ => (0 : ℕ) := by
        funext j
        rfl
      rw [hfeq]
      simp
    | some k =>
      have hk : k < 20 := binIndex_lt_20 u x k hbi
      have hfeq : (fun j : ℕ => if some k == some j then 1 else 0)
          = fun j : ℕ => if k = j then 1 else 0 := by
        funext j
        by_cases hkj : k = j
        · simp [hkj]
        · simp [hkj]
      rw [hfeq, sum_delta, if_pos hk]
      simp [Nat.add_comm]

/-- C7 amended: whenever the histogram block renders, it uses exactly 20
equal-width bins whose 21 edges start at 0 and end at the upper bound
`max(8, observed maximum magnitude)`, which is at least 8; null
magnitudes are excluded before binning; and the sum of the bin counts
equals the number of non-null, nonnegative magnitudes (negative
magnitudes fall below the range and are silently not binned, which is
what forces the nonnegativity restriction). -/
theorem C7_histogram_amended (t : List ERow) (edges : List ℚ) (counts : List ℕ)
    (h : tab_trend_hist t = some (edges, counts)) :
    edges.length = 21 ∧
    edges.head? = some 0 ∧
    edges.getLast? = some (histUpper t) ∧
    8 ≤ histUpper t ∧
    counts.length = 20 ∧
    counts.sum = ((magsOf t).filter (fun x => decide (0 ≤ x))).length := by
  have h8 : (8 : ℚ) ≤ histUpper t := le_max_left 8 _
  have hu : (0 : ℚ) < histUpper t := lt_of_lt_of_le (by norm_num) h8
  unfold tab_trend_hist at h
  split_ifs at h with hg
  · rw [Option.some.injEq, Prod.mk.injEq] at h
    obtain ⟨he, hc⟩ := h
    subst he
    subst hc
    refine ⟨?_, ?_, ?_, h8, ?_, ?_⟩
    · simp [histEdges]
    · rw [histEdges, List.head?_map, (by decide : (List.range 21).head? = some 0)]
      simp
    · rw [histEdges, List.getLast?_map,
        (by decide : (List.range 21).getLast? = some 20)]
      simp only [Option.map_some']
      rw [Option.some.injEq]
      push_cast
      ring
    · simp [histCounts]
    · rw [histCounts_sum]
      congr 1
      apply List.filter_congr
      intro x hx
      have hxu : x ≤ histUpper t := le_trans (le_maxQ _ x hx) (le_max_right 8 _)
      by_cases h0 : 0 ≤ x
      · rw [binIndex_isSome _ x hu h0 hxu, decide_eq_true h0]
      · have hns : ¬ (binIndex (histUpper t) x).isSome = true :=
          fun hs => h0 (binIndex_nonneg _ x hu hs)
        rw [Bool.not_eq_true] at hns
        rw [hns, decide_eq_false h0]

/-- C7 fails as stated: on a working table with magnitudes 0 and -1 the
histogram block renders, but the bin counts sum to 1 while the table has
2 non-null magnitudes — the negative magnitude falls below the fixed
range and is dropped from binning. -/
theorem C7_histogram_counterexample :
    tab_trend_hist histTable
      = some (histEdges (histUpper histTable),
          histCounts (histUpper histTable) (magsOf histTable)) ∧
    (histCounts (histUpper histTable) (magsOf histTable)).sum = 1 ∧
    (magsOf histTable).length = 2 := by
  refine ⟨rfl, ?_, rfl⟩
  rw [histCounts_sum]
  have hU : histUpper histTable = 8 := by decide
  have hM : magsOf histTable = [0, -1] := by decide
  rw [hU, hM, List.filter_cons, List.filter_cons, List.filter_nil]
  have h1 : (binIndex 8 (0 : ℚ)).isSome = true :=
    binIndex_isSome 8 0 (by norm_num) (by norm_num) (by norm_num)
  have h2 : (binIndex 8 (-1 : ℚ)).isSome = false := by
    cases hbi : (binIndex 8 (-1 : ℚ)).isSome with
    | false => rfl
    | true => exact absurd (binIndex_nonneg 8 (-1) (by norm_num) hbi) (by norm_num)
  simp [h1, h2]

/-- Witness for the amended C7 at the concrete working table. -/
theorem C7_histogram_amended_witness :
    (histEdges (histUpper histTable)).length = 21 ∧
    (histEdges (histUpper histTable)).head? = some 0 ∧
    (histEdges (histUpper histTable)).getLast? = some (histUpper histTable) ∧
    8 ≤ histUpper histTable ∧
    (histCounts (histUpper histTable) (magsOf histTable)).length = 20 ∧
    (histCounts (histUpper histTable) (magsOf histTable)).sum
      = ((magsOf histTable).filter (fun x => decide (0 ≤ x))).length :=
  C7_histogram_amended histTable _ _ rfl
